import Mathlib

/-!
Verification of the ClariFi retrieval engine (`knowledge_base.py`) and the
ReAct agent control loop (`agent_system.py`).

The retrieval engine is embedded with the module-level corpus as an explicit
parameter: in the source, `DOC_TOKENS`, `VOCAB`, `DF`, `IDF` and `DOC_VECS`
are globals computed once from `CORPUS`; here each is a function of the
corpus list.  Python floats are idealised as real numbers.  Python dicts
mapping terms to weights are embedded as association lists whose key order
is the dict's insertion order (first occurrence).
-/

namespace ClariFi

/-- A corpus document: the `{id, title, text}` records of `CORPUS`. -/
structure Doc where
  id : String
  title : String
  text : String
deriving DecidableEq

/-- The apostrophe character of the token regex. -/
def apos : Char := Char.ofNat 39

/-- Python `str.lower()` on characters. -/
def lowerList (cs : List Char) : List Char := cs.map Char.toLower

/-- Character class of the regex `[a-zA-Z0-9']+` used by `tokenize`. -/
def isTokChar (c : Char) : Bool :=
  ('a' ≤ c && c ≤ 'z') || ('A' ≤ c && c ≤ 'Z') || ('0' ≤ c && c ≤ '9') || c = apos

/-- Maximal runs of token characters, the semantics of
`re.findall(r"[a-zA-Z0-9']+", ·)` on a character list. -/
def tokRuns : List Char → List (List Char)
  | [] => []
  | c :: rest =>
    if isTokChar c then
      match tokRuns rest, rest with
      | r :: rs, d :: _ => if isTokChar d then (c :: r) :: rs else [c] :: r :: rs
      | _, _ => [[c]]
    else tokRuns rest

/-- `tokenize(text)` from `knowledge_base.py`:
`re.findall(r"[a-zA-Z0-9']+", text.lower())`. -/
def tokenize (s : String) : List String :=
  (tokRuns (lowerList s.toList)).map (fun cs => String.mk cs)

/-- First-occurrence key order of a Python `Counter`/dict built from a
token list (used to embed dict iteration order). -/
def uniqKeys (seen : List String) : List String → List String
  | [] => []
  | t :: ts => if t ∈ seen then uniqKeys seen ts else t :: uniqKeys (t :: seen) ts

/-- A sparse term-weight vector (a Python dict `term -> float`). -/
abbrev Vec := List (String × ℝ)

/-- `compute_tf(tokens)`: normalized term frequency; `{}` on an empty
token list. -/
noncomputable def compute_tf (tokens : List String) : Vec :=
  if tokens = [] then []
  else (uniqKeys [] tokens).map
    (fun t => (t, (tokens.count t : ℝ) / (tokens.length : ℝ)))

/-- `DOC_TOKENS`: tokens of `title + " " + text` for each document. -/
def DOC_TOKENS (corpus : List Doc) : List (List String) :=
  corpus.map (fun d => tokenize (d.title ++ " " ++ d.text))

/-- `VOCAB`: the distinct tokens across all documents.  The source sorts
this list; only membership is ever used, so the order is left as built. -/
def VOCAB (corpus : List Doc) : List String :=
  ((DOC_TOKENS corpus).flatten).dedup

/-- `compute_df` / the `DF` dict, as a total function: the number of
documents whose token list contains the term.  (The source also inserts an
explicit `0` entry for absent `VOCAB` terms, which the function form
subsumes.) -/
def DF (corpus : List Doc) (t : String) : Nat :=
  ((DOC_TOKENS corpus).filter (fun tokens => t ∈ tokens)).length

/-- `N_DOC = len(DOC_TOKENS)`. -/
def N_DOC (corpus : List Doc) : Nat := (DOC_TOKENS corpus).length

/-- The `IDF` dict: `math.log((N_DOC + 1) / (DF[t] + 0.5)) + 1`, defined on
`VOCAB` terms. -/
noncomputable def IDF (corpus : List Doc) (t : String) : ℝ :=
  Real.log (((N_DOC corpus : ℝ) + 1) / ((DF corpus t : ℝ) + 0.5)) + 1

/-- `IDF.get(t, 0.0)`: the IDF dict has exactly the `VOCAB` keys. -/
noncomputable def idfOrZero (corpus : List Doc) (t : String) : ℝ :=
  if t ∈ VOCAB corpus then IDF corpus t else 0

/-- `tfidf_vector(tokens)`: `{t: tf[t] * IDF.get(t, 0.0) for t in tf}`. -/
noncomputable def tfidf_vector (corpus : List Doc) (tokens : List String) : Vec :=
  (compute_tf tokens).map (fun kv => (kv.1, kv.2 * idfOrZero corpus kv.1))

/-- `DOC_VECS`: one TF-IDF vector per document. -/
noncomputable def DOC_VECS (corpus : List Doc) : List Vec :=
  (DOC_TOKENS corpus).map (tfidf_vector corpus)

/-- The dot-product loop of `cosine`: `for k, v in a.items(): if k in b:
dot += v * b[k]`. -/
noncomputable def dotInter (a b : Vec) : ℝ :=
  (a.map (fun kv =>
    if (b.lookup kv.1).isSome then kv.2 * ((b.lookup kv.1).getD 0) else 0)).sum

/-- The Euclidean norm of a sparse vector's present weights:
`math.sqrt(sum(v * v for v in a.values()))`. -/
noncomputable def vecNorm (v : Vec) : ℝ :=
  Real.sqrt ((v.map (fun kv => kv.2 * kv.2)).sum)

/-- `cosine(a, b)` from `knowledge_base.py`. -/
noncomputable def cosine (a b : Vec) : ℝ :=
  if a = [] ∨ b = [] then 0
  else if vecNorm a = 0 ∨ vecNorm b = 0 then 0
  else dotInter a b / (vecNorm a * vecNorm b)

/-- The descending comparison used by `scored.sort(reverse=True)` on
`(score, index)` pairs: Python tuple order, reversed.  All pairs carry
distinct indices, so this total order determines the sorted list
uniquely and the embedding does not depend on the sort algorithm. -/
def scoredGE (x y : ℝ × ℕ) : Prop := y.1 < x.1 ∨ (x.1 = y.1 ∧ y.2 ≤ x.2)

noncomputable instance : DecidableRel scoredGE := fun x y =>
  inferInstanceAs (Decidable (_ ∨ _))

instance : IsTotal (ℝ × ℕ) scoredGE where
  total x y := by
    rcases lt_trichotomy x.1 y.1 with h | h | h
    · exact Or.inr (Or.inl h)
    · rcases Nat.le_total y.2 x.2 with h2 | h2
      · exact Or.inl (Or.inr ⟨h, h2⟩)
      · exact Or.inr (Or.inr ⟨h.symm, h2⟩)
    · exact Or.inl (Or.inl h)

instance : IsTrans (ℝ × ℕ) scoredGE where
  trans x y z hxy hyz := by
    rcases hxy with h1 | ⟨e1, l1⟩
    · rcases hyz with h2 | ⟨e2, l2⟩
      · exact Or.inl (h2.trans h1)
      · exact Or.inl (e2 ▸ h1)
    · rcases hyz with h2 | ⟨e2, l2⟩
      · exact Or.inl (e1 ▸ h2)
      · exact Or.inr ⟨e1.trans e2, l2.trans l1⟩

/-- `scored = [(cosine(qvec, v), i) for i, v in enumerate(DOC_VECS)]`. -/
noncomputable def scoredList (corpus : List Doc) (query : String) : List (ℝ × ℕ) :=
  ((DOC_VECS corpus).enum).map
    (fun p => (cosine (tfidf_vector corpus (tokenize query)) p.2, p.1))

/-- `scored.sort(reverse=True)`. -/
noncomputable def sortScored (corpus : List Doc) (query : String) : List (ℝ × ℕ) :=
  List.insertionSort scoredGE (scoredList corpus query)

/-- Python list slicing `xs[:k]` for an `int` k, including the negative
case: `xs[:k]` with `k < 0` keeps the first `len(xs) + k` elements
(clamped at zero). -/
def pySlice {α : Type} (k : Int) (xs : List α) : List α :=
  if 0 ≤ k then xs.take k.toNat else xs.take (xs.length - (-k).toNat)

/-- One search result: a copy of the corpus document plus its score
(`d = CORPUS[idx].copy(); d["score"] = float(score)`). -/
structure SearchHit where
  id : String
  title : String
  text : String
  score : ℝ

/-- The default document is never reached (indices come from
`enumerate(DOC_VECS)`), but keeps list indexing total. -/
def emptyDoc : Doc := ⟨"", "", ""⟩

/-- `search_corpus(query, k=3)` from `knowledge_base.py`. -/
noncomputable def search_corpus (corpus : List Doc) (query : String) (k : Int) :
    List SearchHit :=
  (pySlice k (sortScored corpus query)).map
    (fun p =>
      let d := corpus.getD p.2 emptyDoc
      { id := d.id, title := d.title, text := d.text, score := p.1 })

/-- The cosine score of document `i` against a query (used to state the
tie-breaking property). -/
noncomputable def docScore (corpus : List Doc) (query : String) (i : Nat) : ℝ :=
  cosine (tfidf_vector corpus (tokenize query)) ((DOC_VECS corpus).getD i [])

/-!
The agent control loop of `agent_system.py`.  The external collaborators —
the reasoning generator (`self.llm`), the tool registry (`self.tools`) and
the prompt builder (`make_prompt`) — are parameters of the embedded loop.
The generator additionally receives the iteration index so that stateful
Python callables are covered; a Python exception raised by the generator or
by a tool handler is modelled by the `exn` constructor of its result type.
A tool's JSON-serialised payload (`json.dumps(obs_payload)`, computed in the
same `try` block as the handler call) is folded into the handler's `ok`
result.  String operations are embedded at the character-list level. -/

/-- Python `str.strip()` (whitespace from both ends, on characters). -/
def pyStrip (cs : List Char) : List Char :=
  ((cs.dropWhile Char.isWhitespace).reverse.dropWhile Char.isWhitespace).reverse

/-- An argument value produced by the action parser: a quoted string or a
bare integer literal. -/
inductive Value where
  | str (s : String)
  | int (n : Int)
deriving DecidableEq

/-- Python `str(v)`: a string is returned as is, anything else is rendered
as text. -/
def Value.toText : Value → String
  | .str s => s
  | .int n => toString n

/-- Characters allowed in an action or argument name. -/
def isNameChar (c : Char) : Bool := c.isAlphanum || c = '_'

def skipWs (cs : List Char) : List Char := cs.dropWhile Char.isWhitespace

/-- Reads a natural number literal (a nonempty digit run). -/
def readNat? (cs : List Char) : Option Nat :=
  if cs = [] then none
  else if cs.all (fun c => c.isDigit) then
    some (cs.foldl (fun acc c => acc * 10 + (c.toNat - 48)) 0)
  else none

/-- Reads an integer literal with an optional leading minus sign. -/
def readInt? : List Char → Option Int
  | '-' :: ds => (readNat? ds).map (fun n => -(n : Int))
  | ds => (readNat? ds).map (fun n => (n : Int))

/-- Modelled from the spec: one argument value of the external Action
Parser's `toolname[arg="value", arg2=value2]` syntax — a double-quoted
string, or a bare token (an integer literal when it reads as one). -/
def parseValue (cs : List Char) : Option (Value × List Char) :=
  match skipWs cs with
  | [] => none
  | c :: rest =>
    if c = '"' then
      match rest.dropWhile (fun x => x ≠ '"') with
      | [] => none
      | d :: rest2 =>
        if d = '"' then
          some (.str (String.mk (rest.takeWhile (fun x => x ≠ '"'))), rest2)
        else none
    else
      let tok := (c :: rest).takeWhile (fun x => x ≠ ',' && x ≠ ']' && !x.isWhitespace)
      if tok = [] then none
      else
        let v := match readInt? tok with
          | some n => Value.int n
          | none => Value.str (String.mk tok)
        some (v, (c :: rest).drop tok.length)

/-- Modelled from the spec: the comma-separated `key=value` argument list
of the external Action Parser, consumed up to the closing bracket.  The
fuel argument only bounds the recursion; one unit is spent per argument. -/
def parseArgs : Nat → List Char → List (String × Value) →
    Option (List (String × Value))
  | 0, _, _ => none
  | fuel + 1, cs, acc =>
    match skipWs cs with
    | [] => none
    | c :: rest =>
      if c = ']' then (if skipWs rest = [] then some acc else none)
      else
        let key := (c :: rest).takeWhile isNameChar
        if key = [] then none
        else
          match skipWs ((c :: rest).drop key.length) with
          | [] => none
          | d :: rest2 =>
            if d = '=' then
              match parseValue rest2 with
              | none => none
              | some (v, rest3) =>
                match skipWs rest3 with
                | [] => none
                | f :: rest4 =>
                  if f = ',' then parseArgs fuel rest4 (acc ++ [(String.mk key, v)])
                  else if f = ']' then
                    (if skipWs rest4 = [] then some (acc ++ [(String.mk key, v)]) else none)
                  else none
            else none

/-- Modelled from the spec: the external Action Parser (`parse_action` of
`prompting_techniques.py`, which is absent from the sources).  Per the spec
it maps one action-line string to `(name, arguments)` or a failure signal;
the expected syntax is an optional action marker followed by
`toolname[arg="value", arg2=value2]`. -/
def parse_action (line : String) : Option (String × List (String × Value)) :=
  let t := pyStrip line.toList
  let t := if ("Action:".toList).isPrefixOf t then pyStrip (t.drop 7) else t
  let name := t.takeWhile isNameChar
  if name = [] then none
  else
    match t.drop name.length with
    | [] => none
    | c :: rest =>
      if c = '[' then
        (parseArgs (rest.length + 1) rest []).map (fun args => (String.mk name, args))
      else none

/-- One trajectory step: `Step(thought, action, observation)`. -/
structure Step where
  thought : String
  action : String
  observation : String
deriving DecidableEq

/-- `AgentConfig` with its source defaults. -/
structure AgentConfig where
  max_steps : Nat
  allow_tools : List String
  verbose : Bool
deriving DecidableEq

/-- `AgentConfig()`: `max_steps=6`, both search-style tools allowed. -/
def defaultAgentConfig : AgentConfig :=
  ⟨6, ["search", "explain_term", "list_docs"], true⟩

/-- Result of one call of the external reasoning generator: its text, or
the message of the exception it raised. -/
inductive LLMResult where
  | ok (text : String)
  | exn (msg : String)

/-- Result of one tool-handler invocation: the serialised payload, or the
message of the exception it raised. -/
inductive ToolResult where
  | ok (payload : String)
  | exn (msg : String)

/-- A registry entry: the handler's accepted parameter names
(`inspect.signature(tool_fn).parameters`) and the handler itself. -/
structure Tool where
  params : List String
  fn : List (String × Value) → ToolResult

/-- The external collaborators and configuration of one `ReActAgent`. -/
structure AgentEnv where
  llm : Nat → String → LLMResult
  tools : String → Option Tool
  cfg : AgentConfig
  make_prompt : String → List Step → String

/-- The loop's mutable state: `self.trajectory` and `final_answer`. -/
structure RunState where
  trajectory : List Step
  final_answer : Option String
deriving DecidableEq

/-- Whether one iteration falls through to the next (`cont`) or breaks out
of the loop (`stop`). -/
inductive IterResult where
  | cont (st : RunState)
  | stop (st : RunState)
deriving DecidableEq

/-- The state carried by either constructor. -/
def IterResult.state : IterResult → RunState
  | .cont st => st
  | .stop st => st

/-- The raw text substituted when `self.llm(prompt)` raises `e`. -/
def synthLLMError (e : String) : String :=
  "I encountered an error while generating a response.\nAction: finish[answer=\"Tool error calling LLM: " ++ e ++ "\"]"

/-- The marker searched for by `_extract_last_thought_action`. -/
def actionMarker : List Char := "Action:".toList

/-- `text.rfind("Action:")`: the last index at which the marker occurs. -/
def lastIdx (pat : List Char) (s : List Char) : Option Nat :=
  ((List.range (s.length + 1)).filter (fun i => pat.isPrefixOf (s.drop i))).getLast?

/-- `ReActAgent._extract_last_thought_action` (the argument is always a
string here, so the `isinstance` guard of the source is vacuous). -/
def extractLastThoughtAction (text : String) : String × String :=
  match lastIdx actionMarker text.toList with
  | none => (String.mk (pyStrip text.toList), "Action: finish[answer=\"(no action)\"]")
  | some i =>
    let thought_part := pyStrip (text.toList.take i)
    let action_part := pyStrip (text.toList.drop i)
    let action_line := String.mk (action_part.takeWhile (fun c => c ≠ '\n'))
    (if thought_part = [] then "(no thought)" else String.mk thought_part, action_line)

/-- `ReActAgent._clean_thought`. -/
def clean_thought (t0 : String) : String :=
  let t := pyStrip t0.toList
  let t := if ("thought:".toList).isPrefixOf (lowerList t) then pyStrip (t.drop 8) else t
  if t = [] then "(no thought)" else String.mk t

/-- The raw generator output of iteration `i` (the `try`/`except` around
`self.llm(prompt)`). -/
def iterOut (env : AgentEnv) (q : String) (i : Nat) (st : RunState) : String :=
  match env.llm i (env.make_prompt q st.trajectory) with
  | .ok s => s
  | .exn e => synthLLMError e

/-- The cleaned thought of iteration `i`. -/
def iterThought (env : AgentEnv) (q : String) (i : Nat) (st : RunState) : String :=
  clean_thought (extractLastThoughtAction (iterOut env q i st)).1

/-- The action line of iteration `i`. -/
def iterActionLine (env : AgentEnv) (q : String) (i : Nat) (st : RunState) : String :=
  (extractLastThoughtAction (iterOut env q i st)).2

/-- The parsed action of iteration `i`. -/
def iterParse (env : AgentEnv) (q : String) (i : Nat) (st : RunState) :
    Option (String × List (String × Value)) :=
  parse_action (iterActionLine env q i st)

/-- Step 7 of the loop body: filter the arguments down to the handler's
parameters, invoke it, and serialise — or report — the outcome
(`observation = f"Tool error: {e}"` on an exception). -/
def execObs (tool : Tool) (args : List (String × Value)) : String :=
  match tool.fn (args.filter (fun kv => kv.1 ∈ tool.params)) with
  | .ok payload => payload
  | .exn e => "Tool error: " ++ e

/-- `args.get("answer", "")`, coerced to text and stripped. -/
def finishAnswer (args : List (String × Value)) : String :=
  String.mk (pyStrip (((args.lookup "answer").getD (Value.str "")).toText.toList))

/-- The observation of the disallowed/unknown-tool branch. -/
def disallowedObs (name : String) : String :=
  "Action \x27" ++ name ++ "\x27 not allowed or not found."

/-- One iteration of the `for step_idx in range(max_steps)` body.  The
source tests `name not in allow_tools or name not in tools` before
executing; the two membership tests are taken in the opposite order here,
which does not change the outcome. -/
def runIter (env : AgentEnv) (q : String) (i : Nat) (st : RunState) : IterResult :=
  let thought := iterThought env q i st
  let action_line := iterActionLine env q i st
  match iterParse env q i st with
  | none =>
    .stop ⟨st.trajectory ++ [⟨thought, action_line, "Invalid action format: " ++ action_line⟩],
      st.final_answer⟩
  | some (name, args) =>
    if name = "finish" then
      .stop ⟨st.trajectory ++ [⟨thought, action_line, "done"⟩], some (finishAnswer args)⟩
    else
      match env.tools name with
      | some tool =>
        if name ∈ env.cfg.allow_tools then
          .cont ⟨st.trajectory ++ [⟨thought, action_line, execObs tool args⟩], st.final_answer⟩
        else
          .stop ⟨st.trajectory ++ [⟨thought, action_line, disallowedObs name⟩], st.final_answer⟩
      | none =>
        .stop ⟨st.trajectory ++ [⟨thought, action_line, disallowedObs name⟩], st.final_answer⟩

/-- The loop itself, with the remaining iteration budget as fuel and the
current `step_idx`. -/
def runAux (env : AgentEnv) (q : String) : Nat → Nat → RunState → RunState
  | 0, _, st => st
  | fuel + 1, i, st =>
    match runIter env q i st with
    | .stop st' => st'
    | .cont st' => runAux env q fuel (i + 1) st'

/-- The fallback of the final-answer resolution: the last recorded thought,
or the apology string on an empty trajectory. -/
def fallbackAnswer (traj : List Step) : String :=
  match traj.getLast? with
  | some s => s.thought
  | none => "I’m sorry, I couldn’t generate an answer."

/-- `if not final_answer:` — Python treats both `None` and the empty
string as falsy here. -/
def resolveFinal (fa : Option String) (traj : List Step) : String :=
  match fa with
  | some a => if a = "" then fallbackAnswer traj else a
  | none => fallbackAnswer traj

/-- The dictionary returned by `run`. -/
structure RunResult where
  question : String
  final_answer : String
  steps : List Step
deriving DecidableEq

namespace ReActAgent

/-- `ReActAgent.run(user_query)`: clear the trajectory, iterate at most
`max_steps` times, and resolve the final answer. -/
def run (env : AgentEnv) (user_query : String) : RunResult :=
  let st := runAux env user_query env.cfg.max_steps 0 ⟨[], none⟩
  ⟨user_query, resolveFinal st.final_answer st.trajectory, st.trajectory⟩

end ReActAgent

/-!
Closed instances used to witness or refute the claims: small concrete
corpora for the retrieval engine, and concrete environments for the agent
loop.  The reference constants `c5P`, `c5D`, `c5S2` name the three
constant character regions of the text synthesised on a generator
exception, and `weave` interleaves separators with tokens to state the
maximal-run characterisation of the tokenizer.
-/

/-- A two-document corpus for concrete instances. -/
def twoDocs : List Doc := [⟨"d1", "alpha", "alpha beta"⟩, ⟨"d2", "beta", "beta gamma"⟩]

/-- Two documents with identical indexable content (distinct ids), so both
receive exactly equal scores against every query. -/
def twinDocs : List Doc := [⟨"d1", "alpha", "alpha"⟩, ⟨"d2", "alpha", "alpha"⟩]

/-- The search hit built from document `m` of the corpus and its score. -/
noncomputable def hitOf (corpus : List Doc) (query : String) (m : Nat) : SearchHit :=
  { id := (corpus.getD m emptyDoc).id, title := (corpus.getD m emptyDoc).title,
    text := (corpus.getD m emptyDoc).text, score := docScore corpus query m }

/-- Interleaves `toks.length + 1` separator runs with the token runs. -/
def weave : List (List Char) → List (List Char) → List Char
  | s :: ss, t :: ts => s ++ t ++ weave ss ts
  | [s], [] => s
  | _, _ => []

/-- The text before the action marker in `synthLLMError`. -/
def c5P : List Char := "I encountered an error while generating a response.\n".toList

/-- The constant region from the action marker up to the exception text. -/
def c5D : List Char := "Action: finish[answer=\"Tool error calling LLM: ".toList

/-- The closing quote and bracket after the exception text. -/
def c5S2 : List Char := "\"]".toList

/-- A generator that immediately finishes with an empty answer. -/
def envFinishEmpty : AgentEnv :=
  ⟨fun _ _ => .ok "Thought: because\nAction: finish[answer=\"\"]",
   fun _ => none, defaultAgentConfig, fun _ _ => ""⟩

/-- A generator that immediately finishes with a nonempty answer. -/
def envFinishOk : AgentEnv :=
  ⟨fun _ _ => .ok "Thought: t\nAction: finish[answer=\"final\"]",
   fun _ => none, defaultAgentConfig, fun _ _ => ""⟩

/-- A generator that always raises. -/
def envLLMError : AgentEnv :=
  ⟨fun _ _ => .exn "boom", fun _ => none, defaultAgentConfig, fun _ _ => ""⟩

/-- A generator that raises with a newline inside the exception message. -/
def envLLMErrorNl : AgentEnv :=
  ⟨fun _ _ => .exn "boom\nx", fun _ => none, defaultAgentConfig, fun _ _ => ""⟩

/-- A registered search tool whose handler always raises. -/
def failingSearchTool : Tool := ⟨["query", "k"], fun _ => .exn "boom"⟩

/-- First iteration requests the failing tool, second iteration finishes. -/
def envToolError : AgentEnv :=
  ⟨fun i _ => if i == 0 then .ok "Thought: t\nAction: search[query=\"x\"]"
    else .ok "Action: finish[answer=\"done now\"]",
   fun n => if n == "search" then some failingSearchTool else none,
   ⟨3, ["search"], false⟩, fun _ _ => ""⟩

/-- A generator whose action line does not parse. -/
def envInvalid : AgentEnv :=
  ⟨fun _ _ => .ok "Thought: hmm\nAction: ???[",
   fun _ => none, ⟨3, [], false⟩, fun _ _ => ""⟩

/-! ### Lemmas about the retrieval engine -/

theorem length_scoredList (corpus : List Doc) (q : String) :
    (scoredList corpus q).length = corpus.length := by
  simp [scoredList, DOC_VECS, DOC_TOKENS]

theorem length_sortScored (corpus : List Doc) (q : String) :
    (sortScored corpus q).length = corpus.length := by
  simp [sortScored, length_scoredList]

theorem length_pySlice {α : Type} (k : Int) (xs : List α) :
    (pySlice k xs).length =
      if 0 ≤ k then min k.toNat xs.length else xs.length - (-k).toNat := by
  unfold pySlice
  split <;> simp [Nat.min_eq_left, Nat.sub_le]

theorem length_search_corpus (corpus : List Doc) (q : String) (k : Int) :
    (search_corpus corpus q k).length =
      if 0 ≤ k then min k.toNat corpus.length else corpus.length - (-k).toNat := by
  simp [search_corpus, length_pySlice, length_sortScored]

theorem pySlice_sublist {α : Type} (k : Int) (xs : List α) :
    (pySlice k xs).Sublist xs := by
  unfold pySlice
  split <;> exact List.take_sublist _ _

theorem sortScored_perm (corpus : List Doc) (q : String) :
    (sortScored corpus q).Perm (scoredList corpus q) :=
  List.perm_insertionSort _ _

theorem sortScored_sorted (corpus : List Doc) (q : String) :
    List.Sorted scoredGE (sortScored corpus q) :=
  List.sorted_insertionSort _ _

theorem scoredList_score_zero (corpus : List Doc) (q : String)
    (hq : tfidf_vector corpus (tokenize q) = []) :
    ∀ p ∈ scoredList corpus q, p.1 = 0 := by
  intro p hp
  simp only [scoredList, List.mem_map] at hp
  obtain ⟨x, -, hx⟩ := hp
  rw [← hx, hq]
  simp [cosine]

/-- Claim C1 fails as stated: `search_corpus` does not clamp a negative
`k`; at `k = -1` on a two-document corpus the claimed clamped bound is
`min 0 2 = 0` results, but the Python slice `scored[:-1]` keeps one. -/
theorem c1_counterexample :
    ¬ (search_corpus twoDocs "alpha" (-1)).length ≤ min (Int.toNat (-1)) twoDocs.length := by
  rw [length_search_corpus]
  norm_num [twoDocs]

/-- C1, amended: for `k ≥ 0`, `search_corpus` returns exactly
`min k |corpus|` results (hence at most that many), ordered by
non-increasing cosine score; a negative `k` is not clamped but follows
Python slice semantics, keeping the first `|corpus| - |k|` ranked results
(clamped at zero). -/
theorem c1_topk_sorted (corpus : List Doc) (q : String) (k : Int) :
    (search_corpus corpus q k).Pairwise (fun h1 h2 => h2.score ≤ h1.score) ∧
    (0 ≤ k → (search_corpus corpus q k).length = min k.toNat corpus.length) ∧
    (k < 0 → (search_corpus corpus q k).length = corpus.length - (-k).toNat) := by
  refine ⟨?_, ?_, ?_⟩
  · have hs : List.Pairwise (fun x y : ℝ × ℕ => y.1 ≤ x.1) (sortScored corpus q) := by
      refine (sortScored_sorted corpus q).imp ?_
      rintro x y (h | ⟨h, -⟩)
      · exact le_of_lt h
      · exact le_of_eq h.symm
    have hsl : List.Pairwise (fun x y : ℝ × ℕ => y.1 ≤ x.1)
        (pySlice k (sortScored corpus q)) := hs.sublist (pySlice_sublist _ _)
    exact List.Pairwise.map _ (fun a b hab => hab) hsl
  · intro hk
    rw [length_search_corpus, if_pos hk]
  · intro hk
    rw [length_search_corpus, if_neg (by omega)]

theorem c1_witness :
    0 ≤ (2 : Int) ∧ (search_corpus twoDocs "alpha" 2).length = min (2 : Int).toNat twoDocs.length :=
  ⟨by norm_num, (c1_topk_sorted twoDocs "alpha" 2).2.1 (by norm_num)⟩

/-- Claim C4 fails as stated for the empty-query half: an empty query
tokenizes to nothing, every score is `0.0`, and `search_corpus` still
returns `min k |corpus|` documents rather than an empty list. -/
theorem c4_counterexample :
    tokenize "" = [] ∧ search_corpus twoDocs "" 3 ≠ [] := by
  refine ⟨rfl, fun h => ?_⟩
  have hl := length_search_corpus twoDocs "" 3
  rw [h] at hl
  norm_num [twoDocs] at hl

/-- C4, amended: a `k` of 0 yields an empty result list and no error; a
query that tokenizes to nothing yields, for `k ≥ 0`, the usual
`min k |corpus|` results, each carrying score `0.0` — not an empty list,
and not an error. -/
theorem c4_degenerate_queries (corpus : List Doc) (q : String) (k : Int) :
    search_corpus corpus q 0 = [] ∧
    (tokenize q = [] → 0 ≤ k →
      (search_corpus corpus q k).length = min k.toNat corpus.length ∧
      ∀ h ∈ search_corpus corpus q k, h.score = 0) := by
  constructor
  · simp [search_corpus, pySlice]
  · intro hq hk
    refine ⟨(c1_topk_sorted corpus q k).2.1 hk, ?_⟩
    intro h hh
    simp only [search_corpus, List.mem_map] at hh
    obtain ⟨p, hp, hph⟩ := hh
    have hp2 : p ∈ sortScored corpus q := (pySlice_sublist _ _).mem hp
    have hp3 : p ∈ scoredList corpus q := (sortScored_perm corpus q).mem_iff.mp hp2
    have hz : p.1 = 0 := by
      refine scoredList_score_zero corpus q ?_ p hp3
      rw [hq]
      simp [tfidf_vector, compute_tf]
    rw [← hph]
    exact hz

theorem c4_witness :
    tokenize "" = [] ∧ 0 ≤ (3 : Int) ∧
    ((search_corpus twoDocs "" 3).length = min (3 : Int).toNat twoDocs.length ∧
      ∀ h ∈ search_corpus twoDocs "" 3, h.score = 0) :=
  ⟨rfl, by norm_num, (c4_degenerate_queries twoDocs "" 3).2 rfl (by norm_num)⟩

theorem sum_map_ite {α : Type} (f : α → ℝ) (p : α → Bool) (l : List α) :
    (l.map (fun x => if p x then f x else 0)).sum = ((l.filter p).map f).sum := by
  induction l with
  | nil => simp
  | cons x l ih =>
    by_cases h : p x <;> simp [List.filter_cons, h, ih]

theorem cosine_zero_of_norm (a b : Vec) (h : vecNorm a = 0 ∨ vecNorm b = 0) :
    cosine a b = 0 := by
  unfold cosine
  by_cases h1 : a = [] ∨ b = []
  · simp [h1]
  · simp [h1, h]

theorem mem_uniqKeys {t : String} : ∀ (seen l : List String), t ∈ uniqKeys seen l → t ∈ l := by
  intro seen l
  induction l generalizing seen with
  | nil => simp [uniqKeys]
  | cons x l ih =>
    intro h
    unfold uniqKeys at h
    split at h
    · exact List.mem_cons_of_mem _ (ih _ h)
    · rcases List.mem_cons.mp h with h | h
      · exact h ▸ List.mem_cons_self _ _
      · exact List.mem_cons_of_mem _ (ih _ h)

theorem tfidf_key_mem (corpus : List Doc) (tokens : List String) (kv : String × ℝ)
    (h : kv ∈ tfidf_vector corpus tokens) : kv.1 ∈ tokens := by
  simp only [tfidf_vector, List.mem_map] at h
  obtain ⟨tf, htf, rfl⟩ := h
  unfold compute_tf at htf
  split at htf
  · simp at htf
  · simp only [List.mem_map] at htf
    obtain ⟨t, ht, rfl⟩ := htf
    exact mem_uniqKeys _ _ ht

/-- C7: the dot product ranges only over keys present in both sparse
vectors; a zero norm on either side short-circuits the similarity to
`0.0` with no division; and a query made only of out-of-vocabulary terms
scores `0.0` against every document vector. -/
theorem c7_cosine_guarded :
    (∀ a b : Vec, dotInter a b =
      ((a.filter (fun kv => (b.lookup kv.1).isSome)).map
        (fun kv => kv.2 * ((b.lookup kv.1).getD 0))).sum) ∧
    (∀ a b : Vec, vecNorm a = 0 ∨ vecNorm b = 0 → cosine a b = 0) ∧
    (∀ (corpus : List Doc) (q : String), (∀ t ∈ tokenize q, t ∉ VOCAB corpus) →
      ∀ v ∈ DOC_VECS corpus, cosine (tfidf_vector corpus (tokenize q)) v = 0) := by
  refine ⟨fun a b => sum_map_ite _ _ a, cosine_zero_of_norm, ?_⟩
  intro corpus q hq v hv
  refine cosine_zero_of_norm _ _ (Or.inl ?_)
  have hz : ∀ kv ∈ tfidf_vector corpus (tokenize q), kv.2 = 0 := by
    intro kv hkv
    have hk : kv.1 ∈ tokenize q := tfidf_key_mem corpus _ kv hkv
    simp only [tfidf_vector, List.mem_map] at hkv
    obtain ⟨tf, htf, rfl⟩ := hkv
    have : tf.1 ∉ VOCAB corpus := hq _ hk
    simp [idfOrZero, this]
  unfold vecNorm
  have : ((tfidf_vector corpus (tokenize q)).map (fun kv => kv.2 * kv.2)).sum = 0 := by
    refine List.sum_eq_zero ?_
    intro x hx
    simp only [List.mem_map] at hx
    obtain ⟨kv, hkv, rfl⟩ := hx
    rw [hz kv hkv]
    ring
  rw [this, Real.sqrt_zero]

theorem c7_witness :
    (∀ t ∈ tokenize "zzz", t ∉ VOCAB twoDocs) ∧
    (∀ v ∈ DOC_VECS twoDocs, cosine (tfidf_vector twoDocs (tokenize "zzz")) v = 0) :=
  ⟨by decide, c7_cosine_guarded.2.2 twoDocs "zzz" (by decide)⟩

/-- C8: for a vocabulary term of a non-empty collection the index assigns
`IDF(t) = ln((N + 1) / (DF(t) + 0.5)) + 1`, and this is strictly positive
— even when `DF(t) = N` — because `DF(t) ≤ N` makes the log argument
exceed 1. -/
theorem c8_idf_positive (corpus : List Doc) (t : String)
    (h1 : corpus ≠ []) (h2 : t ∈ VOCAB corpus) :
    IDF corpus t =
      Real.log (((N_DOC corpus : ℝ) + 1) / ((DF corpus t : ℝ) + 0.5)) + 1 ∧
    0 < IDF corpus t := by
  refine ⟨rfl, ?_⟩
  have hdf : DF corpus t ≤ N_DOC corpus := List.length_filter_le _ _
  have hden : (0 : ℝ) < (DF corpus t : ℝ) + 0.5 := by positivity
  have hratio : 1 < ((N_DOC corpus : ℝ) + 1) / ((DF corpus t : ℝ) + 0.5) := by
    rw [lt_div_iff₀ hden]
    have : (DF corpus t : ℝ) ≤ (N_DOC corpus : ℝ) := Nat.cast_le.mpr hdf
    linarith
  have hlog := Real.log_pos hratio
  unfold IDF
  linarith

theorem c8_witness :
    twoDocs ≠ [] ∧ "alpha" ∈ VOCAB twoDocs ∧ 0 < IDF twoDocs "alpha" :=
  ⟨by decide, by decide, (c8_idf_positive twoDocs "alpha" (by decide) (by decide)).2⟩

theorem pair_sublist_of_pairwise {α : Type} {r : α → α → Prop} :
    ∀ {l : List α}, l.Pairwise r → ∀ {x y : α}, x ∈ l → y ∈ l → x ≠ y → ¬ r y x →
      [x, y].Sublist l := by
  intro l
  induction l with
  | nil => intro _ x y hx; simp at hx
  | cons a t ih =>
    intro hl x y hx hy hxy hnr
    rcases List.mem_cons.mp hx with rfl | hx'
    · have hy' : y ∈ t := by
        rcases List.mem_cons.mp hy with rfl | h
        · exact absurd rfl hxy
        · exact h
      exact (List.singleton_sublist.mpr hy').cons₂ x
    · rcases List.mem_cons.mp hy with rfl | hy'
      · exact absurd ((List.pairwise_cons.mp hl).1 x hx') hnr
      · exact (ih (List.pairwise_cons.mp hl).2 hx' hy' hxy hnr).cons a

theorem length_DOC_VECS (corpus : List Doc) :
    (DOC_VECS corpus).length = corpus.length := by
  simp [DOC_VECS, DOC_TOKENS]

theorem docScore_mem_scoredList (corpus : List Doc) (q : String) (m : Nat)
    (hm : m < corpus.length) :
    (docScore corpus q m, m) ∈ scoredList corpus q := by
  have hm' : m < (DOC_VECS corpus).length := by rw [length_DOC_VECS]; exact hm
  have henum : (m, (DOC_VECS corpus)[m]) ∈ (DOC_VECS corpus).enum := by
    rw [List.mk_mem_enum_iff_getElem?]
    exact List.getElem?_eq_getElem hm'
  refine List.mem_map.mpr ⟨(m, (DOC_VECS corpus)[m]), henum, ?_⟩
  have hget : (DOC_VECS corpus).getD m [] = (DOC_VECS corpus)[m] := by
    rw [List.getD_eq_getElem?_getD, List.getElem?_eq_getElem hm', Option.getD_some]
  unfold docScore
  rw [hget]

/-- C10: on exactly equal scores `search_corpus` ranks the document with
the larger collection index first — the `(score, index)` pairs are sorted
in reverse lexicographic order — and (the order being a pure function of
corpus, query and `k`) the full result order is deterministic. -/
theorem c10_tie_larger_index_first (corpus : List Doc) (q : String) (i j : ℕ) (k : Int)
    (hij : i < j) (hj : j < corpus.length)
    (heq : docScore corpus q i = docScore corpus q j)
    (hk : (corpus.length : Int) ≤ k) :
    [(docScore corpus q j, j), (docScore corpus q i, i)].Sublist (sortScored corpus q) ∧
    [hitOf corpus q j, hitOf corpus q i].Sublist (search_corpus corpus q k) := by
  have hi : i < corpus.length := hij.trans hj
  have hmi : (docScore corpus q i, i) ∈ sortScored corpus q :=
    (sortScored_perm _ _).mem_iff.mpr (docScore_mem_scoredList _ _ _ hi)
  have hmj : (docScore corpus q j, j) ∈ sortScored corpus q :=
    (sortScored_perm _ _).mem_iff.mpr (docScore_mem_scoredList _ _ _ hj)
  have hne : (docScore corpus q j, j) ≠ (docScore corpus q i, i) := by
    intro h
    have := congrArg Prod.snd h
    simp only at this
    omega
  have hnr : ¬ scoredGE (docScore corpus q i, i) (docScore corpus q j, j) := by
    rintro (h | ⟨-, h2⟩)
    · rw [heq] at h
      exact lt_irrefl _ h
    · omega
  have hsub := pair_sublist_of_pairwise (sortScored_sorted corpus q) hmj hmi hne hnr
  refine ⟨hsub, ?_⟩
  have hk0 : (0 : Int) ≤ k := le_trans (by positivity) hk
  have hslice : pySlice k (sortScored corpus q) = sortScored corpus q := by
    unfold pySlice
    rw [if_pos hk0]
    refine List.take_of_length_le ?_
    rw [length_sortScored]
    omega
  unfold search_corpus
  rw [hslice]
  simpa [hitOf] using hsub.map
    (fun p : ℝ × ℕ => SearchHit.mk (corpus.getD p.2 emptyDoc).id
      (corpus.getD p.2 emptyDoc).title (corpus.getD p.2 emptyDoc).text p.1)

/-! ### The tokenizer returns exactly the maximal token-character runs -/

theorem tokRuns_nil : tokRuns [] = [] := rfl

theorem tokRuns_cons (c : Char) (rest : List Char) :
    tokRuns (c :: rest) =
      if isTokChar c then
        match tokRuns rest, rest with
        | r :: rs, d :: _ => if isTokChar d then (c :: r) :: rs else [c] :: r :: rs
        | _, _ => [[c]]
      else tokRuns rest := rfl

theorem tokRuns_cons_neg (c : Char) (rest : List Char) (hc : isTokChar c = false) :
    tokRuns (c :: rest) = tokRuns rest := by
  rw [tokRuns_cons, hc]
  simp

theorem tokRuns_pos_of_nil (c : Char) (rest : List Char)
    (hc : isTokChar c = true) (h : tokRuns rest = []) :
    tokRuns (c :: rest) = [[c]] := by
  rw [tokRuns_cons, hc, h]
  cases rest <;> simp

theorem tokRuns_pos_pos (c d : Char) (rest : List Char) (r : List Char)
    (rs : List (List Char)) (hc : isTokChar c = true) (hd : isTokChar d = true)
    (h : tokRuns (d :: rest) = r :: rs) :
    tokRuns (c :: d :: rest) = (c :: r) :: rs := by
  rw [tokRuns_cons, hc, h]
  simp [hd]

theorem tokRuns_pos_neg (c d : Char) (rest : List Char) (r : List Char)
    (rs : List (List Char)) (hc : isTokChar c = true) (hd : isTokChar d = false)
    (h : tokRuns (d :: rest) = r :: rs) :
    tokRuns (c :: d :: rest) = [c] :: r :: rs := by
  rw [tokRuns_cons, hc, h]
  simp [hd]

theorem tokRuns_tokens : ∀ (cs : List Char), ∀ t ∈ tokRuns cs,
    t ≠ [] ∧ ∀ c ∈ t, isTokChar c = true := by
  intro cs
  induction cs with
  | nil =>
    intro t ht
    rw [tokRuns_nil] at ht
    simp at ht
  | cons c rest ih =>
    intro t ht
    by_cases hc : isTokChar c = true
    case neg =>
      rw [tokRuns_cons_neg c rest (by simpa using hc)] at ht
      exact ih t ht
    case pos =>
      rcases htr : tokRuns rest with - | ⟨r, rs⟩
      · rw [tokRuns_pos_of_nil c rest hc htr] at ht
        rcases List.mem_singleton.mp ht with rfl
        exact ⟨by simp, fun x hx => by rcases List.mem_singleton.mp hx with rfl; exact hc⟩
      · rcases rest with - | ⟨d, rest'⟩
        · rw [tokRuns_nil] at htr
          simp at htr
        · by_cases hd : isTokChar d = true
          · rw [tokRuns_pos_pos c d rest' r rs hc hd htr] at ht
            rcases List.mem_cons.mp ht with rfl | ht2
            · have hr := ih r (htr ▸ List.mem_cons_self r rs)
              refine ⟨by simp, fun x hx => ?_⟩
              rcases List.mem_cons.mp hx with rfl | hx2
              · exact hc
              · exact hr.2 x hx2
            · exact ih t (htr ▸ List.mem_cons_of_mem r ht2)
          · rw [tokRuns_pos_neg c d rest' r rs hc (by simpa using hd) htr] at ht
            rcases List.mem_cons.mp ht with rfl | ht2
            · exact ⟨by simp, fun x hx => by rcases List.mem_singleton.mp hx with rfl; exact hc⟩
            · exact ih t (htr ▸ ht2)

theorem weave_cons_head (c : Char) (s0 : List Char) (ss toks : List (List Char))
    (hlen : ss.length = toks.length) :
    weave ((c :: s0) :: ss) toks = c :: weave (s0 :: ss) toks := by
  cases toks with
  | nil =>
    have : ss = [] := List.length_eq_zero.mp hlen
    subst this
    rfl
  | cons t ts =>
    cases ss with
    | nil => rfl
    | cons a ss2 => rfl

theorem mem_dropLast_cons {α : Type} (x a : α) (l : List α)
    (h : x ∈ (a :: l).dropLast) : x = a ∨ x ∈ l.dropLast := by
  cases l with
  | nil => simp at h
  | cons b t =>
    rw [List.dropLast_cons₂] at h
    rcases List.mem_cons.mp h with rfl | h2
    · exact Or.inl rfl
    · exact Or.inr h2

theorem tokRuns_decomp : ∀ (n : Nat) (cs : List Char), cs.length ≤ n →
    ∃ s0 ss,
      (s0 :: ss).length = (tokRuns cs).length + 1 ∧
      (∀ sep ∈ s0 :: ss, ∀ c ∈ sep, isTokChar c = false) ∧
      weave (s0 :: ss) (tokRuns cs) = cs ∧
      (∀ sep ∈ ss.dropLast, sep ≠ []) ∧
      (s0 = [] → cs = [] ∨ ∃ d ds, cs = d :: ds ∧ isTokChar d = true) := by
  intro n
  induction n with
  | zero =>
    intro cs hcs
    have : cs = [] := List.length_eq_zero.mp (Nat.le_zero.mp hcs)
    subst this
    exact ⟨[], [], by simp [tokRuns_nil], by simp, rfl, by simp, fun _ => Or.inl rfl⟩
  | succ n ih =>
    intro cs hcs
    cases cs with
    | nil => exact ⟨[], [], by simp [tokRuns_nil], by simp, rfl, by simp, fun _ => Or.inl rfl⟩
    | cons c rest =>
      have hrest : rest.length ≤ n := by
        simp only [List.length_cons] at hcs
        omega
      by_cases hc : isTokChar c = true
      case neg =>
        obtain ⟨s0, ss, hlen, hsep, hweave, hmid, hempty⟩ := ih rest hrest
        have htr : tokRuns (c :: rest) = tokRuns rest :=
          tokRuns_cons_neg c rest (by simpa using hc)
        refine ⟨c :: s0, ss, ?_, ?_, ?_, hmid, ?_⟩
        · rw [htr]
          simpa using hlen
        · intro sep hsepmem c' hc'
          rcases List.mem_cons.mp hsepmem with rfl | hmem
          · rcases List.mem_cons.mp hc' with rfl | hc''
            · simpa using hc
            · exact hsep s0 (List.mem_cons_self _ _) c' hc''
          · exact hsep sep (List.mem_cons_of_mem _ hmem) c' hc'
        · rw [htr, weave_cons_head c s0 ss (tokRuns rest) (by simpa using hlen), hweave]
        · intro habs
          exact absurd habs (by simp)
      case pos =>
        cases rest with
        | nil =>
          refine ⟨[], [[]], ?_, ?_, ?_, by simp, ?_⟩
          · simp [tokRuns_pos_of_nil c [] hc tokRuns_nil]
          · intro sep hsepmem c' hc'
            rcases List.mem_cons.mp hsepmem with rfl | h2
            · simp at hc'
            · rcases List.mem_singleton.mp h2 with rfl
              simp at hc'
          · rw [tokRuns_pos_of_nil c [] hc tokRuns_nil]
            rfl
          · intro _
            exact Or.inr ⟨c, [], rfl, hc⟩
        | cons d rest' =>
          obtain ⟨s0, ss, hlen, hsep, hweave, hmid, hempty⟩ := ih (d :: rest') hrest
          by_cases hd : isTokChar d = true
          case pos =>
            rcases htr : tokRuns (d :: rest') with - | ⟨r, rs⟩
            · -- impossible: a list headed by a token char has a first run
              exfalso
              have h1 : (s0 :: ss).length = 1 := by rw [htr] at hlen; simpa using hlen
              have hss : ss = [] := by
                simp only [List.length_cons] at h1
                exact List.length_eq_zero.mp (by omega)
              subst hss
              rw [htr] at hweave
              have hs0 : s0 = d :: rest' := by simpa [weave] using hweave
              have := hsep s0 (List.mem_cons_self _ _) d (hs0 ▸ List.mem_cons_self _ _)
              rw [hd] at this
              simp at this
            · have hres : tokRuns (c :: d :: rest') = (c :: r) :: rs :=
                tokRuns_pos_pos c d rest' r rs hc hd htr
              have hs0 : s0 = [] := by
                rcases hs : s0 with - | ⟨x, xs⟩
                · rfl
                · rw [htr, hs] at hweave
                  have hxd : x = d := by
                    have h2 : x :: (xs ++ r ++ weave ss rs) = d :: rest' := by
                      simpa [weave] using hweave
                    exact (List.cons.injEq _ _ _ _ ▸ h2).1
                  have hx : isTokChar x = false :=
                    hsep (x :: xs) (hs ▸ List.mem_cons_self _ _) x (List.mem_cons_self _ _)
                  rw [hxd, hd] at hx
                  simp at hx
              subst hs0
              rw [htr] at hlen hweave
              refine ⟨[], ss, ?_, hsep, ?_, hmid, ?_⟩
              · rw [hres]
                simp only [List.length_cons] at hlen ⊢
                omega
              · rw [hres]
                have hwr : r ++ weave ss rs = d :: rest' := by
                  simpa [weave] using hweave
                have hlen2 : ss.length = rs.length + 1 := by
                  simpa using hlen
                cases ss with
                | nil => simp at hlen2
                | cons a ss' =>
                  show ([] ++ (c :: r)) ++ weave (a :: ss') rs = c :: d :: rest'
                  simp only [List.nil_append, List.cons_append]
                  rw [hwr]
              · intro _
                exact Or.inr ⟨c, _, rfl, hc⟩
          case neg =>
            have hd' : isTokChar d = false := by simpa using hd
            rcases htr : tokRuns (d :: rest') with - | ⟨r, rs⟩
            · have hres : tokRuns (c :: d :: rest') = [[c]] :=
                tokRuns_pos_of_nil c (d :: rest') hc htr
              rw [htr] at hlen hweave
              have hss : ss = [] := by
                simp only [List.length_cons, List.length_nil] at hlen
                exact List.length_eq_zero.mp (by omega)
              subst hss
              have hs0 : s0 = d :: rest' := by simpa [weave] using hweave
              refine ⟨[], [s0], by simp [hres], ?_, ?_, by simp, ?_⟩
              · intro sep hsepmem c' hc'
                rcases List.mem_cons.mp hsepmem with rfl | h2
                · simp at hc'
                · rcases List.mem_singleton.mp h2 with rfl
                  exact hsep sep (List.mem_cons_self _ _) c' hc'
              · rw [hres]
                show ([] ++ [c]) ++ weave [s0] [] = c :: d :: rest'
                simp [weave, hs0]
              · intro _
                exact Or.inr ⟨c, _, rfl, hc⟩
            · have hres : tokRuns (c :: d :: rest') = [c] :: r :: rs :=
                tokRuns_pos_neg c d rest' r rs hc hd' htr
              have hs0ne : s0 ≠ [] := by
                intro h0
                rcases hempty h0 with h | ⟨e, es, heq, he⟩
                · simp at h
                · have hed : e = d := ((List.cons.injEq _ _ _ _).mp heq.symm).1
                  rw [hed, hd'] at he
                  simp at he
              rw [htr] at hlen hweave
              refine ⟨[], s0 :: ss, ?_, ?_, ?_, ?_, ?_⟩
              · rw [hres]
                simp only [List.length_cons] at hlen ⊢
                omega
              · intro sep hsepmem c' hc'
                rcases List.mem_cons.mp hsepmem with rfl | h2
                · simp at hc'
                · exact hsep sep h2 c' hc'
              · rw [hres]
                show ([] ++ [c]) ++ weave (s0 :: ss) (r :: rs) = c :: d :: rest'
                simp only [List.nil_append, List.singleton_append]
                rw [hweave]
              · intro sep hsepm
                rcases mem_dropLast_cons sep s0 ss hsepm with rfl | h2
                · exact hs0ne
                · exact hmid sep h2
              · intro _
                exact Or.inr ⟨c, _, rfl, hc⟩

/-- Claim C9 fails in its apostrophe clause: the regex class
`[a-zA-Z0-9']+` admits apostrophes anywhere, so the input consisting of
two apostrophes tokenizes to one token made solely of apostrophes. -/
theorem c9_counterexample :
    tokenize (String.mk [apos, apos]) = [String.mk [apos, apos]] ∧
    ∀ c ∈ (String.mk [apos, apos]).toList, c = apos :=
  ⟨by decide, by decide⟩

/-- C9, amended: `tokenize` returns exactly the maximal runs of
characters from `[a-z0-9']` (after lowercasing; the class also names
`A-Z`, unreachable in lowered text) — every token is a nonempty all-class
run, and the lowered input is the interleaving of the tokens with
class-free separator stretches that are nonempty between consecutive
tokens.  Apostrophes may appear anywhere in a token, including its edges
or as the entire token. -/
theorem c9_maximal_runs (s : String) :
    tokenize s = (tokRuns (lowerList s.toList)).map String.mk ∧
    (∀ t ∈ tokRuns (lowerList s.toList), t ≠ [] ∧ ∀ c ∈ t, isTokChar c = true) ∧
    ∃ s0 ss,
      (s0 :: ss).length = (tokRuns (lowerList s.toList)).length + 1 ∧
      (∀ sep ∈ s0 :: ss, ∀ c ∈ sep, isTokChar c = false) ∧
      weave (s0 :: ss) (tokRuns (lowerList s.toList)) = lowerList s.toList ∧
      (∀ sep ∈ ss.dropLast, sep ≠ []) :=
  ⟨rfl, tokRuns_tokens _, by
    obtain ⟨s0, ss, h1, h2, h3, h4, -⟩ :=
      tokRuns_decomp (lowerList s.toList).length (lowerList s.toList) le_rfl
    exact ⟨s0, ss, h1, h2, h3, h4⟩⟩

/-! ### Lemmas about the agent control loop -/

theorem runAux_succ (env : AgentEnv) (q : String) (fuel i : Nat) (st : RunState) :
    runAux env q (fuel + 1) i st =
      match runIter env q i st with
      | .stop st2 => st2
      | .cont st2 => runAux env q fuel (i + 1) st2 := rfl

theorem runIter_state_trajectory (env : AgentEnv) (q : String) (i : Nat) (st : RunState) :
    ∃ s, ((runIter env q i st).state).trajectory = st.trajectory ++ [s] := by
  simp only [runIter]
  rcases h : iterParse env q i st with - | ⟨name, args⟩
  · simp only [h]
    exact ⟨_, rfl⟩
  · simp only [h]
    by_cases hf : name = "finish"
    · rw [if_pos hf]
      exact ⟨_, rfl⟩
    · rw [if_neg hf]
      rcases ht : env.tools name with - | tool
      · simp only [ht]
        exact ⟨_, rfl⟩
      · simp only [ht]
        by_cases ha : name ∈ env.cfg.allow_tools
        · rw [if_pos ha]
          exact ⟨_, rfl⟩
        · rw [if_neg ha]
          exact ⟨_, rfl⟩

theorem runAux_length (env : AgentEnv) (q : String) : ∀ (fuel i : Nat) (st : RunState),
    (runAux env q fuel i st).trajectory.length ≤ st.trajectory.length + fuel := by
  intro fuel
  induction fuel with
  | zero => intro i st; simp [runAux]
  | succ n ih =>
    intro i st
    obtain ⟨s, hs⟩ := runIter_state_trajectory env q i st
    unfold runAux
    rcases h : runIter env q i st with st' | st'
    · rw [h] at hs
      simp only [IterResult.state] at hs
      have hlen : st'.trajectory.length = st.trajectory.length + 1 := by
        rw [hs]; simp
      dsimp only
      calc (runAux env q n (i + 1) st').trajectory.length
          ≤ st'.trajectory.length + n := ih (i + 1) st'
        _ ≤ st.trajectory.length + (n + 1) := by omega
    · rw [h] at hs
      simp only [IterResult.state] at hs
      have : st'.trajectory.length = st.trajectory.length + 1 := by
        rw [hs]; simp
      dsimp only
      omega

/-- C3: `run` executes at most `max_steps` iterations, each recording one
step, so the returned trajectory holds at most `max_steps` steps
(`max_steps` defaults to 6); when the loop never recorded a finish answer,
the returned `final_answer` is the last recorded thought, or the apology
string on an empty trajectory. -/
theorem c3_step_bound_and_fallback (env : AgentEnv) (q : String) :
    (ReActAgent.run env q).steps.length ≤ env.cfg.max_steps ∧
    ((runAux env q env.cfg.max_steps 0 ⟨[], none⟩).final_answer = none →
      (ReActAgent.run env q).final_answer = fallbackAnswer (ReActAgent.run env q).steps) ∧
    defaultAgentConfig.max_steps = 6 := by
  refine ⟨?_, ?_, rfl⟩
  · simpa [ReActAgent.run] using runAux_length env q env.cfg.max_steps 0 ⟨[], none⟩
  · intro h
    simp [ReActAgent.run, resolveFinal, h]

theorem c3_witness :
    (runAux envInvalid "q" envInvalid.cfg.max_steps 0 ⟨[], none⟩).final_answer = none ∧
    (ReActAgent.run envInvalid "q").final_answer =
      fallbackAnswer (ReActAgent.run envInvalid "q").steps :=
  ⟨by decide, (c3_step_bound_and_fallback envInvalid "q").2.1 (by decide)⟩

/-- Claim C2 fails in its last part: when the finish answer strips to the
empty string, `if not final_answer:` treats it as missing and the returned
`final_answer` falls back to the last thought instead of the stripped
answer.  Here the generator finishes with `answer=""` and thought
"because", and the run returns "because", not `""`. -/
theorem c2_counterexample :
    iterParse envFinishEmpty "q" 0 ⟨[], none⟩ = some ("finish", [("answer", Value.str "")]) ∧
    finishAnswer [("answer", Value.str "")] = "" ∧
    (ReActAgent.run envFinishEmpty "q").final_answer = "because" ∧
    (ReActAgent.run envFinishEmpty "q").final_answer ≠ "" :=
  ⟨by decide, by decide, by decide, by decide⟩

/-- C2, amended: when the parsed action is `finish`, `run` records the
answer argument (coerced to text and stripped), appends one step whose
observation is "done", and breaks out of the loop at that iteration; the
returned `final_answer` equals the stripped answer whenever it is
nonempty (an empty stripped answer instead falls back to the last
recorded thought). -/
theorem c2_finish_semantics (env : AgentEnv) (q : String) (i fuel : Nat) (st : RunState)
    (args : List (String × Value))
    (hp : iterParse env q i st = some ("finish", args)) :
    runAux env q (fuel + 1) i st =
      ⟨st.trajectory ++ [⟨iterThought env q i st, iterActionLine env q i st, "done"⟩],
        some (finishAnswer args)⟩ ∧
    (∀ traj, finishAnswer args ≠ "" →
      resolveFinal (some (finishAnswer args)) traj = finishAnswer args) := by
  constructor
  · have hiter : runIter env q i st = .stop
        ⟨st.trajectory ++ [⟨iterThought env q i st, iterActionLine env q i st, "done"⟩],
          some (finishAnswer args)⟩ := by
      simp only [runIter, hp]
      rw [if_pos trivial]
    rw [runAux_succ, hiter]
  · intro traj hne
    simp [resolveFinal, hne]

theorem c2_witness :
    iterParse envFinishOk "q" 0 ⟨[], none⟩ = some ("finish", [("answer", Value.str "final")]) ∧
    runAux envFinishOk "q" (0 + 1) 0 ⟨[], none⟩ =
      ⟨[⟨iterThought envFinishOk "q" 0 ⟨[], none⟩, iterActionLine envFinishOk "q" 0 ⟨[], none⟩,
          "done"⟩],
        some (finishAnswer [("answer", Value.str "final")])⟩ ∧
    resolveFinal (some (finishAnswer [("answer", Value.str "final")])) [] =
      finishAnswer [("answer", Value.str "final")] :=
  ⟨by decide,
    (c2_finish_semantics envFinishOk "q" 0 0 ⟨[], none⟩ _ (by decide)).1,
    (c2_finish_semantics envFinishOk "q" 0 0 ⟨[], none⟩ _ (by decide)).2 [] (by decide)⟩

/-- C6: when an allowed, registered tool's handler raises, the iteration
appends a step whose observation is the textual tool failure and the loop
proceeds to the next iteration; by contrast the unparsable-action branch
and the disallowed/unknown-tool branch both stop the loop, so the
tool-error branch is the only error branch that continues. -/
theorem c6_tool_error_continues (env : AgentEnv) (q : String) (i fuel : Nat) (st : RunState)
    (name : String) (args : List (String × Value)) (tool : Tool) (e : String)
    (hp : iterParse env q i st = some (name, args))
    (hname : name ≠ "finish")
    (htool : env.tools name = some tool)
    (hallow : name ∈ env.cfg.allow_tools)
    (herr : tool.fn (args.filter (fun kv => kv.1 ∈ tool.params)) = .exn e) :
    runIter env q i st = .cont ⟨st.trajectory ++
        [⟨iterThought env q i st, iterActionLine env q i st, "Tool error: " ++ e⟩],
      st.final_answer⟩ ∧
    runAux env q (fuel + 1) i st = runAux env q fuel (i + 1)
      ⟨st.trajectory ++
        [⟨iterThought env q i st, iterActionLine env q i st, "Tool error: " ++ e⟩],
      st.final_answer⟩ ∧
    (∀ (j : Nat) (st2 : RunState), iterParse env q j st2 = none →
      runIter env q j st2 = .stop ⟨st2.trajectory ++
        [⟨iterThought env q j st2, iterActionLine env q j st2,
          "Invalid action format: " ++ iterActionLine env q j st2⟩], st2.final_answer⟩) ∧
    (∀ (j : Nat) (st2 : RunState) (name2 : String) (args2 : List (String × Value)),
      iterParse env q j st2 = some (name2, args2) → name2 ≠ "finish" →
      name2 ∉ env.cfg.allow_tools ∨ env.tools name2 = none →
      runIter env q j st2 = .stop ⟨st2.trajectory ++
        [⟨iterThought env q j st2, iterActionLine env q j st2, disallowedObs name2⟩],
        st2.final_answer⟩) := by
  have hiter : runIter env q i st = .cont ⟨st.trajectory ++
      [⟨iterThought env q i st, iterActionLine env q i st, "Tool error: " ++ e⟩],
      st.final_answer⟩ := by
    simp only [runIter, hp]
    rw [if_neg hname]
    simp only [htool]
    rw [if_pos hallow]
    have hobs : execObs tool args = "Tool error: " ++ e := by
      unfold execObs
      rw [herr]
    rw [hobs]
  refine ⟨hiter, ?_, ?_, ?_⟩
  · rw [runAux_succ, hiter]
  · intro j st2 h2
    simp only [runIter, h2]
  · intro j st2 name2 args2 h2 hn2 hd
    simp only [runIter, h2]
    rw [if_neg hn2]
    rcases ht2 : env.tools name2 with - | tool2
    · simp only [ht2]
    · simp only [ht2]
      rcases hd with hd | hd
      · rw [if_neg hd]
      · rw [ht2] at hd
        exact absurd hd (by simp)

theorem c6_witness :
    iterParse envToolError "q" 0 ⟨[], none⟩ = some ("search", [("query", Value.str "x")]) ∧
    envToolError.tools "search" = some failingSearchTool ∧
    "search" ∈ envToolError.cfg.allow_tools ∧
    failingSearchTool.fn
      ([("query", Value.str "x")].filter (fun kv => kv.1 ∈ failingSearchTool.params)) =
      .exn "boom" ∧
    runIter envToolError "q" 0 ⟨[], none⟩ = .cont
      ⟨[⟨iterThought envToolError "q" 0 ⟨[], none⟩,
          iterActionLine envToolError "q" 0 ⟨[], none⟩, "Tool error: boom"⟩], none⟩ :=
  ⟨by decide, rfl, by decide, rfl,
    (c6_tool_error_continues envToolError "q" 0 0 ⟨[], none⟩ "search"
      [("query", Value.str "x")] failingSearchTool "boom" (by decide) (by decide) rfl
      (by decide) rfl).1⟩

theorem c10_witness :
    0 < 1 ∧ 1 < twinDocs.length ∧
    docScore twinDocs "alpha" 0 = docScore twinDocs "alpha" 1 ∧
    (twinDocs.length : Int) ≤ 2 ∧
    [hitOf twinDocs "alpha" 1, hitOf twinDocs "alpha" 0].Sublist
      (search_corpus twinDocs "alpha" 2) :=
  ⟨by decide, by decide, rfl, by norm_num [twinDocs],
    (c10_tie_larger_index_first twinDocs "alpha" 0 1 2 (by decide) (by decide) rfl
      (by norm_num [twinDocs])).2⟩

/-! ### The synthesised finish directive on a generator exception (C5) -/

theorem takeWhile_cons_neg {p : Char → Bool} {c : Char} (hc : p c = false) (l : List Char) :
    (c :: l).takeWhile p = [] := by
  simp [List.takeWhile_cons, hc]

theorem dropWhile_cons_neg {p : Char → Bool} {c : Char} (hc : p c = false) (l : List Char) :
    (c :: l).dropWhile p = c :: l := by
  simp [List.dropWhile_cons, hc]

theorem takeWhile_append_all {p : Char → Bool} :
    ∀ (a b : List Char), (∀ x ∈ a, p x = true) → (a ++ b).takeWhile p = a ++ b.takeWhile p := by
  intro a
  induction a with
  | nil => intro b _; simp
  | cons c a ih =>
    intro b h
    have hc : p c = true := h c (List.mem_cons_self _ _)
    simp only [List.cons_append, List.takeWhile_cons, hc, if_true]
    rw [ih b (fun x hx => h x (List.mem_cons_of_mem _ hx))]

theorem dropWhile_append_all {p : Char → Bool} :
    ∀ (a b : List Char), (∀ x ∈ a, p x = true) → (a ++ b).dropWhile p = b.dropWhile p := by
  intro a
  induction a with
  | nil => intro b _; simp
  | cons c a ih =>
    intro b h
    have hc : p c = true := h c (List.mem_cons_self _ _)
    simp only [List.cons_append, List.dropWhile_cons, hc, if_true]
    exact ih b (fun x hx => h x (List.mem_cons_of_mem _ hx))

theorem takeWhile_all_true {p : Char → Bool} :
    ∀ (l : List Char), (∀ x ∈ l, p x = true) → l.takeWhile p = l := by
  intro l
  induction l with
  | nil => intro _; simp
  | cons c l ih =>
    intro h
    have hc : p c = true := h c (List.mem_cons_self _ _)
    simp only [List.takeWhile_cons, hc, if_true]
    rw [ih (fun x hx => h x (List.mem_cons_of_mem _ hx))]

theorem pyStrip_cons_ws {c : Char} (hc : c.isWhitespace = true) (l : List Char) :
    pyStrip (c :: l) = pyStrip l := by
  unfold pyStrip
  rw [List.dropWhile_cons, hc]
  simp

theorem pyStrip_sandwich (a : Char) (mid : List Char) (b : Char)
    (ha : a.isWhitespace = false) (hb : b.isWhitespace = false) :
    pyStrip (a :: (mid ++ [b])) = a :: (mid ++ [b]) := by
  unfold pyStrip
  rw [dropWhile_cons_neg ha]
  have h1 : (a :: (mid ++ [b])).reverse = b :: (mid.reverse ++ [a]) := by simp
  rw [h1, dropWhile_cons_neg hb, ← h1, List.reverse_reverse]

theorem string_mk_append (a b : String) :
    String.mk (a.toList ++ b.toList) = a ++ b := by
  obtain ⟨x⟩ := a
  obtain ⟨y⟩ := b
  rfl

theorem synth_toList (e : String) :
    (synthLLMError e).toList = c5P ++ c5D ++ e.toList ++ c5S2 := by
  obtain ⟨l⟩ := e
  rfl

theorem marker_get6 {s : List Char} (h : actionMarker.isPrefixOf s = true) :
    s[6]? = some ':' := by
  obtain ⟨t, ht⟩ := List.isPrefixOf_iff_prefix.mp h
  rw [← ht, List.getElem?_append_left (by decide : (6 : Nat) < actionMarker.length)]
  rfl

theorem filter_range_eq_single (p : Nat → Bool) (n j : Nat) (hj : j < n)
    (hiff : ∀ i, i < n → (p i = true ↔ i = j)) :
    (List.range n).filter p = [j] := by
  have hmem : ∀ x, x ∈ (List.range n).filter p ↔ x = j := by
    intro x
    rw [List.mem_filter, List.mem_range]
    constructor
    · rintro ⟨h1, h2⟩
      exact (hiff x h1).mp h2
    · rintro rfl
      exact ⟨hj, (hiff _ hj).mpr rfl⟩
  have hnd : ((List.range n).filter p).Nodup := (List.nodup_range n).filter _
  rcases hl : (List.range n).filter p with - | ⟨a, t⟩
  · exfalso
    have hjm := (hmem j).mpr rfl
    rw [hl] at hjm
    simp at hjm
  · rw [hl] at hmem hnd
    have ha : a = j := (hmem a).mp (List.mem_cons_self _ _)
    subst ha
    have ht : t = [] := by
      rcases ht2 : t with - | ⟨b, t'⟩
      · rfl
      · exfalso
        have hb : b ∈ a :: t := by
          rw [ht2]
          exact List.mem_cons_of_mem _ (List.mem_cons_self _ _)
        have hba : b = a := (hmem b).mp hb
        subst hba
        rw [ht2] at hnd
        simp at hnd
    rw [ht]

theorem c5P_length : c5P.length = 52 := by decide

theorem c5D_length : c5D.length = 47 := by decide

theorem c5_occ (e : String) (he : (':' : Char) ∉ e.toList) (i : Nat) :
    (actionMarker.isPrefixOf ((c5P ++ c5D ++ e.toList ++ c5S2).drop i) = true) ↔
      i = c5P.length := by
  have hC1 : (c5P ++ c5D).length = 99 := by decide
  have hS : c5P ++ c5D ++ e.toList ++ c5S2 = (c5P ++ c5D) ++ (e.toList ++ c5S2) := by
    simp [List.append_assoc]
  constructor
  · intro h
    by_cases hc : i + 7 ≤ 99
    · rw [hS] at h
      have hi0 : i - (c5P ++ c5D).length = 0 := by omega
      rw [List.drop_append_eq_append_drop, hi0, List.drop_zero] at h
      have hpre := List.isPrefixOf_iff_prefix.mp h
      rw [List.prefix_iff_eq_take, List.take_append_eq_append_take] at hpre
      have hdlen : ((c5P ++ c5D).drop i).length = 99 - i := by
        simp [List.length_drop, hC1]
      have hlen7 : actionMarker.length - ((c5P ++ c5D).drop i).length = 0 := by
        rw [hdlen]
        have : actionMarker.length = 7 := by decide
        omega
      rw [hlen7, List.take_zero, List.append_nil] at hpre
      have hpre2 : actionMarker <+: (c5P ++ c5D).drop i := by
        rw [hpre]
        exact List.take_prefix _ _
      have hconc : ∀ j, j < 100 → actionMarker <+: (c5P ++ c5D).drop j → j = c5P.length := by
        decide
      exact hconc i (by omega) hpre2
    · exfalso
      have h6 : ((c5P ++ c5D) ++ (e.toList ++ c5S2))[i + 6]? = some ':' := by
        have hm := marker_get6 h
        rw [List.getElem?_drop] at hm
        rw [← hS]
        exact hm
      rw [List.getElem?_append_right (by omega)] at h6
      have hmem : (':' : Char) ∈ e.toList ++ c5S2 := List.getElem?_mem h6
      rcases List.mem_append.mp hmem with hm | hm
      · exact he hm
      · exact absurd hm (by decide)
  · rintro rfl
    have hd : (c5P ++ c5D ++ e.toList ++ c5S2).drop c5P.length =
        c5D ++ e.toList ++ c5S2 := by
      rw [show c5P ++ c5D ++ e.toList ++ c5S2 = c5P ++ (c5D ++ e.toList ++ c5S2) by
        simp [List.append_assoc]]
      exact List.drop_left _ _
    rw [hd]
    refine List.isPrefixOf_iff_prefix.mpr ?_
    rw [show c5D ++ e.toList ++ c5S2 =
        actionMarker ++ ((" finish[answer=\"Tool error calling LLM: " : String).toList ++
          (e.toList ++ c5S2)) by
      rw [show c5D = actionMarker ++
        (" finish[answer=\"Tool error calling LLM: " : String).toList by decide]
      simp [List.append_assoc]]
    exact List.prefix_append _ _

theorem c5_lastIdx (e : String) (he : (':' : Char) ∉ e.toList) :
    lastIdx actionMarker (c5P ++ c5D ++ e.toList ++ c5S2) = some c5P.length := by
  unfold lastIdx
  rw [filter_range_eq_single _ _ c5P.length
    (by
      have h1 := c5P_length
      have h2 := c5D_length
      have h3 : c5S2.length = 2 := by decide
      simp only [List.length_append]
      omega)
    (fun i _ => c5_occ e he i)]
  rfl

theorem string_mk_toList (s : String) : String.mk s.toList = s := by
  obtain ⟨l⟩ := s
  rfl

theorem c5_extract (e : String)
    (hcolon : (':' : Char) ∉ e.toList) (hnl : ('\n' : Char) ∉ e.toList) :
    extractLastThoughtAction (synthLLMError e) =
      ("I encountered an error while generating a response.",
        String.mk (c5D ++ e.toList ++ c5S2)) := by
  have htake : (c5P ++ c5D ++ e.toList ++ c5S2).take c5P.length = c5P := by
    rw [show c5P ++ c5D ++ e.toList ++ c5S2 = c5P ++ (c5D ++ e.toList ++ c5S2) by
      simp [List.append_assoc]]
    exact List.take_left _ _
  have hdrop : (c5P ++ c5D ++ e.toList ++ c5S2).drop c5P.length =
      c5D ++ e.toList ++ c5S2 := by
    rw [show c5P ++ c5D ++ e.toList ++ c5S2 = c5P ++ (c5D ++ e.toList ++ c5S2) by
      simp [List.append_assoc]]
    exact List.drop_left _ _
  have hstrip : pyStrip (c5D ++ e.toList ++ c5S2) = c5D ++ e.toList ++ c5S2 := by
    rw [show c5D ++ e.toList ++ c5S2 =
        'A' :: ((c5D.drop 1 ++ e.toList ++ ['"']) ++ [']']) by
      rw [show c5D = 'A' :: c5D.drop 1 by decide, show c5S2 = ['"'] ++ [']'] by decide]
      simp [List.append_assoc]]
    rw [pyStrip_sandwich 'A' _ ']' (by decide) (by decide)]
  have hntl : ∀ x ∈ c5D ++ e.toList ++ c5S2, decide (x ≠ '\n') = true := by
    intro x hx
    simp only [decide_eq_true_eq]
    intro hxe
    subst hxe
    rcases List.mem_append.mp hx with hx1 | hx2
    · rcases List.mem_append.mp hx1 with hx3 | hx4
      · exact absurd hx3 (by decide)
      · exact hnl hx4
    · exact absurd hx2 (by decide)
  have hline : (c5D ++ e.toList ++ c5S2).takeWhile (fun c => c ≠ '\n') =
      c5D ++ e.toList ++ c5S2 := takeWhile_all_true _ hntl
  have hPstrip : pyStrip c5P =
      ("I encountered an error while generating a response." : String).toList := by decide
  simp only [extractLastThoughtAction, synth_toList e, c5_lastIdx e hcolon, htake, hdrop,
    hstrip, hline, hPstrip]
  rw [if_neg (by decide :
    ¬ (("I encountered an error while generating a response." : String).toList = []))]
  rw [string_mk_toList]

theorem string_toList_mk (l : List Char) : (String.mk l).toList = l := rfl

theorem c5_strip (e : String) :
    pyStrip (c5D ++ e.toList ++ c5S2) = c5D ++ e.toList ++ c5S2 := by
  rw [show c5D ++ e.toList ++ c5S2 =
      'A' :: ((c5D.drop 1 ++ e.toList ++ ['"']) ++ [']']) by
    rw [show c5D = 'A' :: c5D.drop 1 by decide, show c5S2 = ['"'] ++ [']'] by decide]
    simp [List.append_assoc]]
  rw [pyStrip_sandwich 'A' _ ']' (by decide) (by decide)]

theorem parseValue_quoted (T content rest2 : List Char)
    (hdw : T.dropWhile (fun x => x ≠ '"') = '"' :: rest2)
    (htw : T.takeWhile (fun x => x ≠ '"') = content) :
    parseValue ('"' :: T) = some (Value.str (String.mk content), rest2) := by
  unfold parseValue
  rw [show skipWs ('"' :: T) = '"' :: T from by
    unfold skipWs; exact dropWhile_cons_neg (by decide) T]
  dsimp only
  rw [if_pos rfl, hdw]
  dsimp only
  rw [if_pos rfl, htw]

theorem parseArgs_answer_quoted (n : Nat) (T content : List Char)
    (hdw : T.dropWhile (fun x => x ≠ '"') = '"' :: [']'])
    (htw : T.takeWhile (fun x => x ≠ '"') = content) :
    parseArgs (n + 1) ('a' :: 'n' :: 's' :: 'w' :: 'e' :: 'r' :: '=' :: '"' :: T) [] =
      some [("answer", Value.str (String.mk content))] := by
  unfold parseArgs
  rw [show skipWs ('a' :: 'n' :: 's' :: 'w' :: 'e' :: 'r' :: '=' :: '"' :: T) =
      'a' :: 'n' :: 's' :: 'w' :: 'e' :: 'r' :: '=' :: '"' :: T from by
    unfold skipWs; exact dropWhile_cons_neg (by decide) _]
  dsimp only
  rw [if_neg (by decide : ¬ ('a' = ']'))]
  rw [show ('a' :: 'n' :: 's' :: 'w' :: 'e' :: 'r' :: '=' :: '"' :: T).takeWhile isNameChar =
      ['a', 'n', 's', 'w', 'e', 'r'] from rfl]
  rw [if_neg (by decide : ¬ (['a', 'n', 's', 'w', 'e', 'r'] = ([] : List Char)))]
  rw [show ('a' :: 'n' :: 's' :: 'w' :: 'e' :: 'r' :: '=' :: '"' :: T).drop
      (['a', 'n', 's', 'w', 'e', 'r'].length) = '=' :: '"' :: T from rfl]
  rw [show skipWs ('=' :: '"' :: T) = '=' :: '"' :: T from by
    unfold skipWs; exact dropWhile_cons_neg (by decide) _]
  dsimp only
  rw [if_pos rfl]
  rw [parseValue_quoted T content [']'] hdw htw]
  dsimp only
  rw [show skipWs [']'] = [']'] from rfl]
  dsimp only
  rw [if_neg (by decide : ¬ (']' = ',')), if_pos rfl]
  rw [show skipWs ([] : List Char) = [] from rfl]
  rw [if_pos rfl]
  rfl

theorem c5_parse (e : String) (hq : ('"' : Char) ∉ e.toList) :
    parse_action (String.mk (c5D ++ e.toList ++ c5S2)) =
      some ("finish", [("answer", Value.str ("Tool error calling LLM: " ++ e))]) := by
  have heq : ∀ x ∈ e.toList, (decide (x ≠ '"')) = true := by
    intro x hx
    simp only [decide_eq_true_eq]
    intro hxe
    subst hxe
    exact hq hx
  have hQq : ∀ x ∈ ("Tool error calling LLM: " : String).toList,
      (decide (x ≠ '"')) = true := by decide
  have hdwT : ((("Tool error calling LLM: " : String).toList ++
      (e.toList ++ c5S2)).dropWhile (fun x => x ≠ '"')) = '"' :: [']'] := by
    rw [dropWhile_append_all _ _ hQq, dropWhile_append_all _ _ heq]
    decide
  have htwT : ((("Tool error calling LLM: " : String).toList ++
      (e.toList ++ c5S2)).takeWhile (fun x => x ≠ '"')) =
      ("Tool error calling LLM: " : String).toList ++ e.toList := by
    rw [takeWhile_append_all _ _ hQq, takeWhile_append_all _ _ heq]
    rw [show (c5S2.takeWhile (fun x => decide (x ≠ '"'))) = [] by decide]
    rw [List.append_nil]
  have hmk : String.mk (("Tool error calling LLM: " : String).toList ++ e.toList) =
      "Tool error calling LLM: " ++ e := string_mk_append _ _
  have hstrip2 : pyStrip ((" finish[answer=\"Tool error calling LLM: " : String).toList ++
      (e.toList ++ c5S2)) =
      ("finish[answer=\"Tool error calling LLM: " : String).toList ++
      (e.toList ++ c5S2) := by
    rw [show (" finish[answer=\"Tool error calling LLM: " : String).toList ++
        (e.toList ++ c5S2) =
        ' ' :: (("finish[answer=\"Tool error calling LLM: " : String).toList ++
          (e.toList ++ c5S2)) from rfl]
    rw [pyStrip_cons_ws (by decide)]
    rw [show ("finish[answer=\"Tool error calling LLM: " : String).toList ++
        (e.toList ++ c5S2) =
        'f' :: ((("inish[answer=\"Tool error calling LLM: " : String).toList ++
          (e.toList ++ ['"'])) ++ [']']) by
      rw [show c5S2 = ['"'] ++ [']'] by decide,
        show ("finish[answer=\"Tool error calling LLM: " : String).toList =
          'f' :: ("inish[answer=\"Tool error calling LLM: " : String).toList by decide]
      simp [List.append_assoc]]
    rw [pyStrip_sandwich 'f' _ ']' (by decide) (by decide)]
  unfold parse_action
  rw [string_toList_mk, c5_strip e]
  dsimp only
  rw [if_pos (show (("Action:".toList).isPrefixOf (c5D ++ e.toList ++ c5S2)) = true from rfl)]
  rw [show (c5D ++ e.toList ++ c5S2).drop 7 =
      (" finish[answer=\"Tool error calling LLM: " : String).toList ++
        (e.toList ++ c5S2) from rfl]
  rw [hstrip2]
  rw [show ((("finish[answer=\"Tool error calling LLM: " : String).toList ++
      (e.toList ++ c5S2)).takeWhile isNameChar) = ("finish" : String).toList from rfl]
  rw [if_neg (by decide : ¬ (("finish" : String).toList = ([] : List Char)))]
  rw [show ((("finish[answer=\"Tool error calling LLM: " : String).toList ++
      (e.toList ++ c5S2)).drop (("finish" : String).toList.length)) =
      '[' :: (("answer=\"Tool error calling LLM: " : String).toList ++
        (e.toList ++ c5S2)) from rfl]
  dsimp only
  rw [if_pos rfl]
  rw [show parseArgs ((("answer=\"Tool error calling LLM: " : String).toList ++
        (e.toList ++ c5S2)).length + 1)
      (("answer=\"Tool error calling LLM: " : String).toList ++ (e.toList ++ c5S2)) [] =
      some [("answer", Value.str (String.mk
        (("Tool error calling LLM: " : String).toList ++ e.toList)))] from
    parseArgs_answer_quoted _ _ _ hdwT htwT]
  rw [hmk]
  rfl

/-- Claim C5 fails as universally stated: the synthetic directive is
re-extracted from raw text, and `_extract_last_thought_action` truncates
the action line at the first newline of the stripped action part.  An
exception message containing a newline therefore leaves the quoted answer
unterminated, the parse fails, and the run ends in the invalid-action
branch — one step is appended and nothing propagates, but the observation
is not "done" and no finish answer is recorded. -/
theorem c5_counterexample :
    envLLMErrorNl.llm 0 (envLLMErrorNl.make_prompt "q" ([] : List Step)) =
      .exn "boom\nx" ∧
    ReActAgent.run envLLMErrorNl "q" =
      ⟨"q", "I encountered an error while generating a response.",
        [⟨"I encountered an error while generating a response.",
          "Action: finish[answer=\"Tool error calling LLM: boom",
          "Invalid action format: Action: finish[answer=\"Tool error calling LLM: boom"⟩]⟩ ∧
    "Invalid action format: Action: finish[answer=\"Tool error calling LLM: boom" ≠
      "done" ∧
    (runAux envLLMErrorNl "q" envLLMErrorNl.cfg.max_steps 0 ⟨[], none⟩).final_answer =
      none :=
  ⟨rfl, by decide, by decide, by decide⟩

/-- C5, amended: when the reasoning generator raises, `run` does not
propagate the exception; the loop substitutes text carrying a synthetic
finish directive whose answer describes the error.  Whenever the exception
text contains none of the delimiter characters `:`, `"` and newline, the
directive survives extraction and parsing intact, so the loop appends
exactly one step for that iteration (observation "done"), records the
stripped error text as the final answer, and exits as a finish termination
regardless of remaining budget.  (A message containing such a delimiter
still yields exactly one appended step and no crash, but the truncated
directive fails to parse and the run ends in the invalid-action branch —
see the counterexample.) -/
theorem c5_generator_exception (env : AgentEnv) (q : String) (i fuel : Nat)
    (st : RunState) (e : String)
    (hllm : env.llm i (env.make_prompt q st.trajectory) = .exn e)
    (he : ∀ c ∈ e.toList, c ≠ ':' ∧ c ≠ '"' ∧ c ≠ '\n') :
    runAux env q (fuel + 1) i st =
      ⟨st.trajectory ++ [⟨"I encountered an error while generating a response.",
          "Action: finish[answer=\"Tool error calling LLM: " ++ e ++ "\"]", "done"⟩],
        some (String.mk (pyStrip ("Tool error calling LLM: " ++ e).toList))⟩ := by
  have hcolon : (':' : Char) ∉ e.toList := fun hm => (he _ hm).1 rfl
  have hquote : ('"' : Char) ∉ e.toList := fun hm => (he _ hm).2.1 rfl
  have hnl : ('\n' : Char) ∉ e.toList := fun hm => (he _ hm).2.2 rfl
  have hout : iterOut env q i st = synthLLMError e := by
    unfold iterOut
    rw [hllm]
  have hext := c5_extract e hcolon hnl
  have hline : iterActionLine env q i st = String.mk (c5D ++ e.toList ++ c5S2) := by
    unfold iterActionLine
    rw [hout, hext]
  have hthought : iterThought env q i st =
      "I encountered an error while generating a response." := by
    unfold iterThought
    rw [hout, hext]
    show clean_thought "I encountered an error while generating a response." =
      "I encountered an error while generating a response."
    decide
  have hparse : iterParse env q i st =
      some ("finish", [("answer", Value.str ("Tool error calling LLM: " ++ e))]) := by
    unfold iterParse
    rw [hline, c5_parse e hquote]
  have hiter : runIter env q i st = .stop
      ⟨st.trajectory ++ [⟨iterThought env q i st, iterActionLine env q i st, "done"⟩],
        some (finishAnswer [("answer", Value.str ("Tool error calling LLM: " ++ e))])⟩ := by
    simp only [runIter, hparse]
    rw [if_pos trivial]
  rw [runAux_succ, hiter, hthought, hline]
  rw [show String.mk (c5D ++ e.toList ++ c5S2) =
      "Action: finish[answer=\"Tool error calling LLM: " ++ e ++ "\"]" from by
    obtain ⟨l⟩ := e
    rfl]
  rw [show finishAnswer [("answer", Value.str ("Tool error calling LLM: " ++ e))] =
      String.mk (pyStrip ("Tool error calling LLM: " ++ e).toList) from rfl]

theorem c5_witness :
    envLLMError.llm 0 (envLLMError.make_prompt "q" ([] : List Step)) = .exn "boom" ∧
    (∀ c ∈ ("boom" : String).toList, c ≠ ':' ∧ c ≠ '"' ∧ c ≠ '\n') ∧
    runAux envLLMError "q" (5 + 1) 0 ⟨[], none⟩ =
      ⟨[⟨"I encountered an error while generating a response.",
          "Action: finish[answer=\"Tool error calling LLM: " ++ "boom" ++ "\"]", "done"⟩],
        some (String.mk (pyStrip ("Tool error calling LLM: " ++ "boom").toList))⟩ :=
  ⟨rfl, by decide,
    c5_generator_exception envLLMError "q" 0 5 ⟨[], none⟩ "boom" rfl (by decide)⟩

end ClariFi
